import Mathlib

/-!
Verification of the `law_ai` repository's ingestion and search pipeline
(`scripts/ingest.py`, `scripts/search.py`, `lawbot/cli/search.py`) against its
natural-language specification.

The Python code is shallowly embedded: dictionaries become structures, SQL
tables become lists of row structures with explicit upsert semantics, and the
two `while` loops that walk the region graph are embedded with an explicit
fuel parameter returning `Option` (so that genuine non-termination of the
source is expressible as `none` for every fuel).
-/

namespace LawAI

/-! ## Chunking (`scripts/ingest.py`, `chunk_text`)

The source splits `text` into whitespace-separated words (`text.split()`),
slides a window over the word list, and joins each window back with single
spaces.  We model the text by its word list, so a chunk is a `List String`
of words; word counts and word-level overlap are then directly expressible.

The `while start < len(words)` loop is embedded with a fuel parameter: each
loop iteration consumes one unit of fuel, `none` means the fuel ran out.
`chunk_text` supplies `words.length + 1` fuel, which is proven sufficient
whenever `overlap_words < max_words` (`chunk_text_total`). -/

/-- One embedding of the `while start < len(words):` loop body of
`chunk_text`:
```
end = min(start + max_words, len(words))
chunks.append(words[start:end])
if end >= len(words): break
start = end - overlap_words
```
`fuel` bounds the number of iterations; `none` means the fuel ran out. -/
def chunkLoop (words : List String) (maxWords overlapWords : Nat) :
    Nat → Nat → Option (List (List String))
  | 0, _ => none
  | fuel + 1, start =>
    if start < words.length then
      let e := min (start + maxWords) words.length
      let c := (words.drop start).take (e - start)
      if words.length ≤ e then
        some [c]
      else
        (chunkLoop words maxWords overlapWords fuel (e - overlapWords)).map (c :: ·)
    else
      some []

/-- `chunk_text(text, max_words=750, overlap_words=75)` from
`scripts/ingest.py`, on the word list of `text`.  If the text fits in one
window it is returned whole; otherwise the sliding-window loop runs with
`words.length + 1` fuel. -/
def chunk_text (words : List String) (maxWords : Nat := 750)
    (overlapWords : Nat := 75) : Option (List (List String)) :=
  if words.length ≤ maxWords then
    some [words]
  else
    chunkLoop words maxWords overlapWords (words.length + 1) 0

/-- Reconstruction of a word sequence from overlapping chunks: chunk 0 in
full, followed by each later chunk with its first `ov` (overlap) words
removed. -/
def reassemble (ov : Nat) : List (List String) → List String
  | [] => []
  | c :: rest => c ++ (rest.map (List.drop ov)).flatten

/-- Unfolding of `chunkLoop` for an iteration that appends a full window and
continues. -/
theorem chunkLoop_continue (words : List String) (maxW ovW fuel start : Nat)
    (hf : 0 < fuel) (h2 : start + maxW < words.length) :
    chunkLoop words maxW ovW fuel start =
      (chunkLoop words maxW ovW (fuel - 1) (start + maxW - ovW)).map
        (((words.drop start).take maxW) :: ·) := by
  obtain ⟨f, rfl⟩ : ∃ f, fuel = f + 1 := ⟨fuel - 1, by omega⟩
  have hstart : start < words.length := by omega
  have hmin : min (start + maxW) words.length = start + maxW := by omega
  simp only [chunkLoop, hstart, if_pos, hmin]
  rw [if_neg (by omega)]
  simp

/-- Unfolding of `chunkLoop` for the final iteration: the window reaches the
end of the word list and the loop breaks. -/
theorem chunkLoop_last (words : List String) (maxW ovW fuel start : Nat)
    (hf : 0 < fuel) (h1 : start < words.length) (h2 : words.length ≤ start + maxW) :
    chunkLoop words maxW ovW fuel start = some [words.drop start] := by
  obtain ⟨f, rfl⟩ : ∃ f, fuel = f + 1 := ⟨fuel - 1, by omega⟩
  have hmin : min (start + maxW) words.length = words.length := by omega
  simp only [chunkLoop, h1, if_pos, hmin]
  rw [if_pos (le_refl _)]
  have : (words.drop start).take (words.length - start) = words.drop start := by
    have hl : (words.drop start).length = words.length - start := List.length_drop start words
    rw [← hl, List.take_length]
  rw [this]

/-- Main loop invariant: with `overlap_words < max_words` and enough fuel, the
loop terminates, produces a non-empty chunk list whose head is the window at
`start`, whose overlap-stripped concatenation is `words.drop start`, and whose
consecutive chunks overlap by exactly `ovW` words. -/
theorem chunkLoop_spec (words : List String) (maxW ovW : Nat) (hov : ovW < maxW) :
    ∀ fuel start, start < words.length → words.length - start ≤ fuel →
    ∃ cs, chunkLoop words maxW ovW fuel start = some cs ∧
      cs ≠ [] ∧
      cs.head? = some ((words.drop start).take (min maxW (words.length - start))) ∧
      (cs.map (List.drop ovW)).flatten = words.drop (start + ovW) ∧
      reassemble ovW cs = words.drop start ∧
      cs.Chain' (fun a b => b.take ovW = a.drop (a.length - ovW)) := by
  intro fuel
  induction fuel with
  | zero => intro start h1 h2; omega
  | succ f ih =>
    intro start h1 h2
    by_cases hend : words.length ≤ start + maxW
    · -- final window: the loop breaks with a single chunk `words.drop start`
      refine ⟨[words.drop start], chunkLoop_last words maxW ovW (f + 1) start (by omega) h1 hend,
        by simp, ?_, ?_, ?_, by simp⟩
      · have hmin : min maxW (words.length - start) = words.length - start := by omega
        rw [hmin]
        have hl : (words.drop start).length = words.length - start := List.length_drop start words
        rw [← hl, List.take_length]
        rfl
      · simp [List.drop_drop]
      · simp [reassemble]
    · -- full window appended, loop continues at `start + maxW - ovW`
      push_neg at hend
      obtain ⟨cs', hcs', hne', hhead', hflat', hre', hchain'⟩ :=
        ih (start + maxW - ovW) (by omega) (by omega)
      have hstep := chunkLoop_continue words maxW ovW (f + 1) start (by omega) hend
      simp only [Nat.add_sub_cancel] at hstep
      refine ⟨(words.drop start).take maxW :: cs', by rw [hstep, hcs']; rfl,
        by simp, ?_, ?_, ?_, ?_⟩
      · have hmin : min maxW (words.length - start) = maxW := by omega
        rw [hmin]
        rfl
      · -- overlap-dropped flatten covers `words.drop (start + ovW)`
        have hdt : List.drop ovW ((words.drop start).take maxW)
            = ((words.drop start).drop ovW).take (maxW - ovW) := by
          rw [List.drop_take]
        have hdd : (words.drop start).drop ovW = words.drop (start + ovW) := by
          rw [List.drop_drop]
        have hdd2 : words.drop (start + maxW - ovW + ovW) =
            (words.drop (start + ovW)).drop (maxW - ovW) := by
          rw [List.drop_drop]
          congr 1
          omega
        rw [List.map_cons, List.flatten_cons, hflat', hdt, hdd, hdd2,
          List.take_append_drop]
      · -- reassembly: the head window plus the tail's stripped chunks
        show (words.drop start).take maxW ++ (cs'.map (List.drop ovW)).flatten
            = words.drop start
        have : start + maxW - ovW + ovW = start + maxW := by omega
        rw [hflat', this]
        have hdd : words.drop (start + maxW) = (words.drop start).drop maxW := by
          rw [List.drop_drop]
        rw [hdd, List.take_append_drop]
      · -- consecutive chunks overlap by exactly `ovW` words
        rw [List.chain'_cons']
        refine ⟨?_, hchain'⟩
        intro b hb
        rw [hhead'] at hb
        simp only [Option.mem_def, Option.some.injEq] at hb
        subst hb
        have hlen : ((words.drop start).take maxW).length = maxW := by
          simp [List.length_take, List.length_drop]
          omega
        rw [hlen, List.take_take, List.drop_take]
        have h1' : min ovW (min maxW (words.length - (start + maxW - ovW))) = ovW := by
          omega
        have h2' : maxW - (maxW - ovW) = ovW := by omega
        rw [h1', h2', List.drop_drop]
        congr 2
        omega

/-- Claim C3: for every non-empty word list and `overlap_words < max_words`,
`chunk_text` succeeds and its chunks cover the whole word sequence: chunk 0
followed by every later chunk minus its first `overlap_words` words
reconstructs the input exactly, and consecutive chunks overlap by exactly
`overlap_words` words (the first `overlap_words` words of chunk `i+1` are the
last `overlap_words` words of chunk `i`). -/
theorem chunk_text_coverage (words : List String) (maxW ovW : Nat)
    (hne : words ≠ []) (hov : ovW < maxW) :
    ∃ cs, chunk_text words maxW ovW = some cs ∧
      reassemble ovW cs = words ∧
      cs.Chain' (fun a b => b.take ovW = a.drop (a.length - ovW)) := by
  rw [chunk_text]
  by_cases hshort : words.length ≤ maxW
  · rw [if_pos hshort]
    exact ⟨[words], rfl, by simp [reassemble], by simp⟩
  · rw [if_neg hshort]
    push_neg at hshort
    obtain ⟨cs, hcs, _, _, _, hre, hchain⟩ :=
      chunkLoop_spec words maxW ovW hov (words.length + 1) 0 (by omega) (by omega)
    exact ⟨cs, hcs, by simpa using hre, hchain⟩

/-- Witness for C3 at a concrete input: `chunk_text ["a","b","c"] 2 1`. -/
theorem chunk_text_coverage_witness :
    (["a", "b", "c"] : List String) ≠ [] ∧ 1 < 2 ∧
    ∃ cs, chunk_text ["a", "b", "c"] 2 1 = some cs ∧
      reassemble 1 cs = ["a", "b", "c"] ∧
      cs.Chain' (fun a b => b.take 1 = a.drop (a.length - 1)) :=
  ⟨by decide, by decide, chunk_text_coverage ["a", "b", "c"] 2 1 (by decide) (by decide)⟩

/-- The exact value of `chunk_text` on any 2000-word text with the default
parameters: windows at word offsets 0, 675 and 1350. -/
theorem chunk_text_at_2000 (words : List String) (h : words.length = 2000) :
    chunk_text words 750 75 =
      some [words.take 750, (words.drop 675).take 750, words.drop 1350] := by
  rw [chunk_text, if_neg (by omega), h]
  rw [chunkLoop_continue words 750 75 (2000 + 1) 0 (by norm_num) (by omega)]
  have e1 : (2000 + 1) - 1 = 2000 := rfl
  have e2 : 0 + 750 - 75 = 675 := rfl
  rw [e1, e2]
  rw [chunkLoop_continue words 750 75 2000 675 (by norm_num) (by omega)]
  have e3 : (2000 : Nat) - 1 = 1999 := rfl
  have e4 : 675 + 750 - 75 = 1350 := rfl
  rw [e3, e4]
  rw [chunkLoop_last words 750 75 1999 1350 (by norm_num) (by omega) (by omega)]
  simp

/-- Claim C1 (amended): on a 2000-word text, `chunk_text` with
`max_words = 750`, `overlap_words = 75` returns exactly three chunks of word
counts 750, 750 and 650 (not 500), and each chunk `i > 0` begins with the
last 75 words of chunk `i - 1`. -/
theorem chunk_text_2000 (words : List String) (h : words.length = 2000) :
    ∃ c0 c1 c2, chunk_text words 750 75 = some [c0, c1, c2] ∧
      c0.length = 750 ∧ c1.length = 750 ∧ c2.length = 650 ∧
      c1.take 75 = c0.drop (c0.length - 75) ∧
      c2.take 75 = c1.drop (c1.length - 75) := by
  refine ⟨words.take 750, (words.drop 675).take 750, words.drop 1350,
    chunk_text_at_2000 words h, ?_, ?_, ?_, ?_, ?_⟩
  · simp [List.length_take]; omega
  · simp [List.length_take, List.length_drop]; omega
  · simp [List.length_drop]; omega
  · have hl : (words.take 750).length = 750 := by simp [List.length_take]; omega
    rw [hl, List.take_take, List.drop_take]
    norm_num
  · have hl : ((words.drop 675).take 750).length = 750 := by
      simp [List.length_take, List.length_drop]; omega
    rw [hl, List.drop_take, List.drop_drop]

/-- Witness for the amended C1 at the concrete 2000-word input
`List.replicate 2000 "w"`. -/
theorem chunk_text_2000_witness :
    (List.replicate 2000 "w").length = 2000 ∧
    ∃ c0 c1 c2, chunk_text (List.replicate 2000 "w") 750 75 = some [c0, c1, c2] ∧
      c0.length = 750 ∧ c1.length = 750 ∧ c2.length = 650 ∧
      c1.take 75 = c0.drop (c0.length - 75) ∧
      c2.take 75 = c1.drop (c1.length - 75) :=
  ⟨List.length_replicate 2000 "w",
   chunk_text_2000 (List.replicate 2000 "w") (List.length_replicate 2000 "w")⟩

/-- Counterexample to C1 as stated: on the concrete 2000-word text
`List.replicate 2000 "w"`, the third chunk has 650 words, not 500. -/
theorem chunk_text_2000_counterexample :
    ¬ ∃ c0 c1 c2,
        chunk_text (List.replicate 2000 "w") 750 75 = some [c0, c1, c2] ∧
        c0.length = 750 ∧ c1.length = 750 ∧ c2.length = 500 := by
  rintro ⟨c0, c1, c2, heq, h0, h1, h2⟩
  rw [chunk_text_at_2000 (List.replicate 2000 "w") (List.length_replicate 2000 "w")] at heq
  simp only [Option.some.injEq, List.cons.injEq, and_true] at heq
  obtain ⟨-, -, hc2⟩ := heq
  rw [← hc2, List.length_drop, List.length_replicate] at h2
  omega

/-- Claim C2 (the code's actual behavior): whenever the text has more than
`max_words` words and `overlap_words ≥ max_words`, the `chunk_text` loop
never terminates — for every amount of fuel the loop runs out, because
`start = end - overlap_words` never advances past 0.  The source has no
configuration-error check. -/
theorem chunk_text_loops_forever (words : List String) (maxW ovW : Nat)
    (h1 : maxW < words.length) (h2 : maxW ≤ ovW) :
    chunk_text words maxW ovW = none ∧
      ∀ fuel, chunkLoop words maxW ovW fuel 0 = none := by
  have hloop : ∀ fuel, chunkLoop words maxW ovW fuel 0 = none := by
    intro fuel
    induction fuel with
    | zero => rfl
    | succ f ih =>
      have h0 : 0 < words.length := by omega
      have hmin : min (0 + maxW) words.length = maxW := by omega
      simp only [chunkLoop, h0, if_pos, hmin]
      rw [if_neg (by omega)]
      have : maxW - ovW = 0 := by omega
      rw [this, ih]
      rfl
  exact ⟨by rw [chunk_text, if_neg (by omega)]; exact hloop _, hloop⟩

/-- Witness for C2 at a concrete input: three words, `max_words = 2`,
`overlap_words = 2`. -/
theorem chunk_text_loops_forever_witness :
    chunk_text ["a", "b", "c"] 2 2 = none ∧
      chunkLoop ["a", "b", "c"] 2 2 7 0 = none :=
  ⟨(chunk_text_loops_forever ["a", "b", "c"] 2 2 (by decide) (by decide)).1,
   (chunk_text_loops_forever ["a", "b", "c"] 2 2 (by decide) (by decide)).2 7⟩

/-! ## Region graph and jurisdiction hierarchy (`scripts/ingest.py`)

`load_regions_cache` loads the `regions` table into a dict keyed by region id
and the `region_relationships` table (ordered by `is_primary DESC,
coverage_percentage DESC`) into a dict mapping each child id to its ordered
edge list.  We model the regions cache as a list of `Region` rows looked up
by id, and the relationships cache as an association list from child id to
edge lists. -/

/-- A row of the `regions` table / an entry of `_regions_cache`
(`{'id': ..., 'name': ..., 'type': ...}`; the `type` column is `rtype`
here). -/
structure Region where
  id : String
  name : String
  rtype : String
deriving DecidableEq

/-- An edge of `_relationships_cache`:
`{'parent_id': ..., 'is_primary': ..., 'coverage': ...}`. -/
structure Rel where
  parent_id : String
  is_primary : Bool
  coverage : Int
deriving DecidableEq

/-- An element of a jurisdiction hierarchy: a region dict, optionally updated
(`parent_region.update(parents[0])`) with the edge that led to it.  The leaf
entry (the region itself) has no edge. -/
structure HierEntry where
  region : Region
  edge : Option Rel
deriving DecidableEq

/-- The two in-memory caches built by `load_regions_cache`. -/
structure RegionDB where
  regions : List Region
  rels : List (String × List Rel)
deriving DecidableEq

/-- `region_id in _regions_cache` / `_regions_cache[region_id]`. -/
def lookupRegion (db : RegionDB) (region_id : String) : Option Region :=
  db.regions.find? (fun r => r.id == region_id)

/-- `child_id in _relationships_cache` / `_relationships_cache[child_id]`. -/
def lookupRels (db : RegionDB) (child_id : String) : Option (List Rel) :=
  (db.rels.find? (fun kv => kv.1 == child_id)).map (·.2)

/-- The parent chosen by one step of the hierarchy walk from `id`: the
`parent_id` of the first cached edge (the caches are ordered by
`is_primary DESC, coverage_percentage DESC`). -/
def parentOf (db : RegionDB) (id : String) : Option String :=
  (lookupRels db id).bind fun ps => ps.head?.map (·.parent_id)

/-- `b` was reached from `a`: the hierarchy walk's step from `b`'s region
goes to `a`'s region. -/
def linked (db : RegionDB) (a b : HierEntry) : Prop :=
  parentOf db b.region.id = some a.region.id

/-- The `while True:` loop of `get_region_hierarchy`:
```
if current_id not in _relationships_cache: break
if current_id in visited: break
visited.add(current_id)
parents = _relationships_cache[current_id]
if not parents: break
parent_id = parents[0]['parent_id']
if parent_id not in _regions_cache: break
hierarchy.insert(0, parent_region)
current_id = parent_id
```
`fuel` bounds the number of iterations; `none` means the fuel ran out. -/
def hierLoop (db : RegionDB) :
    Nat → List String → List HierEntry → String → Option (List HierEntry)
  | 0, _, _, _ => none
  | fuel + 1, visited, hier, current =>
    match lookupRels db current with
    | none => some hier
    | some parents =>
      if current ∈ visited then some hier
      else
        match parents with
        | [] => some hier
        | p :: _ =>
          match lookupRegion db p.parent_id with
          | none => some hier
          | some preg =>
            hierLoop db fuel (current :: visited) (⟨preg, some p⟩ :: hier) p.parent_id

/-- `get_region_hierarchy(region_id)` from `scripts/ingest.py`: `[]` if the
region is unknown, otherwise the walk from the region up its primary-edge
chain, root first.  The fuel `db.rels.length + 1` is proven sufficient
(`get_region_hierarchy_spec`): each iteration adds an unvisited relationship
key to `visited`. -/
def get_region_hierarchy (db : RegionDB) (region_id : String) : List HierEntry :=
  match lookupRegion db region_id with
  | none => []
  | some r => (hierLoop db (db.rels.length + 1) [] [⟨r, none⟩] region_id).getD []

/-- The number of relationship-cache keys not yet visited: the termination
measure of the hierarchy walk. -/
def remainingKeys (db : RegionDB) (visited : List String) : Nat :=
  ((db.rels.map Prod.fst).filter (fun k => k ∉ visited)).length

theorem remainingKeys_lt (db : RegionDB) (visited : List String) (current : String)
    (hk : current ∈ db.rels.map Prod.fst) (hv : current ∉ visited) :
    remainingKeys db (current :: visited) < remainingKeys db visited := by
  unfold remainingKeys
  have hsplit : (db.rels.map Prod.fst).filter (fun k => k ∉ (current :: visited))
      = ((db.rels.map Prod.fst).filter (fun k => k ∉ visited)).filter
          (fun k => k ≠ current) := by
    rw [List.filter_filter]
    apply List.filter_congr
    intro a _
    by_cases h1 : a = current <;> by_cases h2 : a ∈ visited <;>
      simp [h1, h2, List.mem_cons]
  rw [hsplit]
  apply List.length_filter_lt_length_iff_exists.mpr
  refine ⟨current, ?_, by simp⟩
  rw [List.mem_filter]
  exact ⟨hk, by simpa using hv⟩

theorem hierLoop_spec (db : RegionDB) :
    ∀ fuel visited hier current,
      remainingKeys db visited < fuel →
      hier.head?.map (fun e => e.region.id) = some current →
      List.Chain' (linked db) hier →
      ∃ h, hierLoop db fuel visited hier current = some h ∧
        h ≠ [] ∧ h.getLast? = hier.getLast? ∧ List.Chain' (linked db) h := by
  intro fuel
  induction fuel with
  | zero => intro visited hier current hfuel; omega
  | succ f ih =>
    intro visited hier current hfuel hhd hchain
    have hne : hier ≠ [] := by
      intro h; rw [h] at hhd; simp at hhd
    match hrels : lookupRels db current with
    | none =>
      exact ⟨hier, by simp [hierLoop, hrels], hne, rfl, hchain⟩
    | some parents =>
      by_cases hvis : current ∈ visited
      · exact ⟨hier, by simp [hierLoop, hrels, hvis], hne, rfl, hchain⟩
      · match hps : parents with
        | [] => exact ⟨hier, by simp [hierLoop, hrels, hvis], hne, rfl, hchain⟩
        | p :: rest =>
          match hreg : lookupRegion db p.parent_id with
          | none => exact ⟨hier, by simp [hierLoop, hrels, hvis, hreg], hne, rfl, hchain⟩
          | some preg =>
            have hpregid : preg.id = p.parent_id := by
              have := List.find?_some hreg
              simpa using this
            have hkey : current ∈ db.rels.map Prod.fst := by
              unfold lookupRels at hrels
              match hfind : db.rels.find? (fun kv => kv.1 == current) with
              | none => rw [hfind] at hrels; simp at hrels
              | some kv =>
                have hmem := List.mem_of_find?_eq_some hfind
                have hkv := List.find?_some hfind
                have : kv.1 = current := by simpa using hkv
                exact this ▸ List.mem_map_of_mem Prod.fst hmem
            have hfuel' : remainingKeys db (current :: visited) < f := by
              have := remainingKeys_lt db visited current hkey hvis
              omega
            have hhd' : ((⟨preg, some p⟩ : HierEntry) :: hier).head?.map
                (fun e => e.region.id) = some p.parent_id := by
              simp [hpregid]
            have hchain' : List.Chain' (linked db) (⟨preg, some p⟩ :: hier) := by
              rw [List.chain'_cons']
              refine ⟨?_, hchain⟩
              intro b hb
              match hh : hier.head? with
              | none => rw [hh] at hb; simp at hb
              | some e =>
                rw [hh] at hb
                simp only [Option.mem_def, Option.some.injEq] at hb
                have heid : e.region.id = current := by
                  rw [hh] at hhd; simpa using hhd
                rw [← hb]
                show parentOf db e.region.id = some preg.id
                rw [heid, parentOf, hrels, hpregid]
                simp
            obtain ⟨h, hh, hne', hlast, hchain''⟩ :=
              ih (current :: visited) (⟨preg, some p⟩ :: hier) p.parent_id hfuel' hhd' hchain'
            refine ⟨h, ?_, hne', ?_, hchain''⟩
            · rw [← hh]
              simp [hierLoop, hrels, hvis, hreg]
            · rw [hlast]
              match hhier : hier with
              | [] => exact absurd hhier hne
              | x :: t => rfl

/-- Claim C4: for every region id present in the regions cache, the
hierarchy walk terminates with the canonical fuel (`db.rels.length + 1`),
and `get_region_hierarchy` returns a non-empty list ordered root-first (each
entry is the walk's parent of the next) whose last element is the region with
that id itself.  This holds even without an acyclicity assumption, because
the `visited` set guards against cycles. -/
theorem get_region_hierarchy_spec (db : RegionDB) (region_id : String) (r : Region)
    (hr : lookupRegion db region_id = some r) :
    ∃ h, hierLoop db (db.rels.length + 1) [] [⟨r, none⟩] region_id = some h ∧
      get_region_hierarchy db region_id = h ∧
      h ≠ [] ∧ h.getLast? = some ⟨r, none⟩ ∧ List.Chain' (linked db) h := by
  have hrid : r.id = region_id := by
    have := List.find?_some hr
    simpa using this
  have hfuel : remainingKeys db [] < db.rels.length + 1 := by
    have h1 : remainingKeys db [] ≤ (db.rels.map Prod.fst).length :=
      List.length_filter_le _ _
    have h2 : (db.rels.map Prod.fst).length = db.rels.length := List.length_map _ _
    omega
  obtain ⟨h, hh, hne, hlast, hchain⟩ :=
    hierLoop_spec db (db.rels.length + 1) [] [⟨r, none⟩] region_id hfuel
      (by simp [hrid]) (by simp)
  exact ⟨h, hh, by simp [get_region_hierarchy, hr, hh], hne, by simpa using hlast, hchain⟩

/-- Witness for C4 at a concrete two-region cache: `GA` has primary parent
`US`. -/
theorem get_region_hierarchy_spec_witness :
    lookupRegion
        ⟨[⟨"US", "United States", "COUNTRY"⟩, ⟨"GA", "Georgia", "STATE"⟩],
         [("GA", [⟨"US", true, 100⟩])]⟩ "GA" = some ⟨"GA", "Georgia", "STATE"⟩ ∧
    ∃ h, hierLoop
        ⟨[⟨"US", "United States", "COUNTRY"⟩, ⟨"GA", "Georgia", "STATE"⟩],
         [("GA", [⟨"US", true, 100⟩])]⟩ 2 [] [⟨⟨"GA", "Georgia", "STATE"⟩, none⟩] "GA" = some h ∧
      get_region_hierarchy
        ⟨[⟨"US", "United States", "COUNTRY"⟩, ⟨"GA", "Georgia", "STATE"⟩],
         [("GA", [⟨"US", true, 100⟩])]⟩ "GA" = h ∧
      h ≠ [] ∧ h.getLast? = some ⟨⟨"GA", "Georgia", "STATE"⟩, none⟩ ∧
      List.Chain' (linked ⟨[⟨"US", "United States", "COUNTRY"⟩, ⟨"GA", "Georgia", "STATE"⟩],
         [("GA", [⟨"US", true, 100⟩])]⟩) h :=
  ⟨by decide,
   get_region_hierarchy_spec
     ⟨[⟨"US", "United States", "COUNTRY"⟩, ⟨"GA", "Georgia", "STATE"⟩],
      [("GA", [⟨"US", true, 100⟩])]⟩ "GA" ⟨"GA", "Georgia", "STATE"⟩ (by decide)⟩

/-! ## Document enrichment (`scripts/ingest.py`, `enrich_with_jurisdiction`) -/

/-- Python `pattern in s` (substring containment). -/
def pyContains (s pat : String) : Bool :=
  decide (pat.data <:+: s.data)

/-- An input document dict, with the keys read by `detect_region_from_source`,
`create_chunks` and `ingest_to_postgres`.  `cite` is optional because the
code falls back to a fresh uuid when it is missing; the other keys are
modeled as always-present fields (their `.get` defaults only apply to absent
keys). -/
structure Doc where
  source : String
  jurisdiction : String
  court : String
  cite : Option String
  title : String
  text : String
  title_num : String
  chapter : String
  source_url : String
  date : Option String
  release : Option String
deriving DecidableEq

/-- `detect_region_from_source(doc)` from `scripts/ingest.py`. -/
def detect_region_from_source (doc : Doc) : String :=
  if doc.source == "GA_CODE" then "GA"
  else if doc.source == "COURTLISTENER" && pyContains doc.court.toLower "ga" then "GA"
  else if doc.source == "MUNICODE" && pyContains doc.jurisdiction "Gwinnett" then "GA-GWINNETT"
  else if doc.source == "MUNICODE" && pyContains doc.jurisdiction "Fulton" then "GA-FULTON"
  else if doc.source == "MUNICODE" && pyContains doc.jurisdiction "Atlanta" then "GA-ATLANTA"
  else "GA"

/-- `get_all_parent_counties(region_id)` from `scripts/ingest.py`: every
cached edge of `region_id` whose parent exists in the regions cache with type
`COUNTY`, as region-plus-edge entries, in cache (i.e. `is_primary DESC,
coverage DESC`) order. -/
def get_all_parent_counties (db : RegionDB) (region_id : String) : List HierEntry :=
  match lookupRels db region_id with
  | none => []
  | some rels =>
    rels.filterMap (fun rel =>
      match lookupRegion db rel.parent_id with
      | some reg => if reg.rtype == "COUNTY" then some ⟨reg, some rel⟩ else none
      | none => none)

/-- A document after `enrich_with_jurisdiction`: the original dict plus the
jurisdiction keys the enricher writes. -/
structure Enriched where
  doc : Doc
  region_type : String
  region_id : String
  region_name : String
  applies_to_country : Option String
  applies_to_state : Option String
  applies_to_counties : Option (List String)
  primary_county : Option String
  applies_to_city : Option String
  jurisdiction_hierarchy : List HierEntry
deriving DecidableEq

/-- `enrich_with_jurisdiction(doc)` from `scripts/ingest.py`. -/
def enrich_with_jurisdiction (db : RegionDB) (doc : Doc) : Enriched :=
  let region_id := detect_region_from_source doc
  let hierarchy := get_region_hierarchy db region_id
  match hierarchy.getLast? with
  | none =>
    -- `if not hierarchy:` fallback when the region is not found
    { doc := doc, region_type := "STATE", region_id := "GA",
      region_name := "Georgia", applies_to_country := some "US",
      applies_to_state := some "GA", applies_to_counties := none,
      primary_county := none, applies_to_city := none,
      jurisdiction_hierarchy := [] }
  | some current =>
    let country := hierarchy.find? (fun r => r.region.rtype == "COUNTRY")
    let state := hierarchy.find? (fun r => r.region.rtype == "STATE")
    let city := hierarchy.find? (fun r => r.region.rtype == "CITY")
    let countyPair : Option (List String) × Option String :=
      match city with
      | some c =>
        let counties := get_all_parent_counties db c.region.id
        (if counties.isEmpty then none else some (counties.map (fun e => e.region.id)),
         counties.head?.map (fun e => e.region.id))
      | none =>
        match hierarchy.find? (fun r => r.region.rtype == "COUNTY") with
        | some county => (some [county.region.id], some county.region.id)
        | none => (none, none)
    { doc := doc,
      region_type := current.region.rtype,
      region_id := current.region.id,
      region_name := current.region.name,
      applies_to_country := country.map (fun e => e.region.id),
      applies_to_state := state.map (fun e => e.region.id),
      applies_to_counties := countyPair.1,
      primary_county := countyPair.2,
      applies_to_city := city.map (fun e => e.region.id),
      jurisdiction_hierarchy := hierarchy }

/-- Claim C5: an unknown region id yields the empty hierarchy, and a document
whose detected region id is unknown is enriched, without error, with the
default state-level jurisdiction (`STATE`/`GA`, state `GA`, country `US`) and
an empty hierarchy. -/
theorem enrich_unknown_region :
    (∀ (db : RegionDB) (id : String),
      lookupRegion db id = none → get_region_hierarchy db id = []) ∧
    (∀ (db : RegionDB) (doc : Doc),
      lookupRegion db (detect_region_from_source doc) = none →
        (enrich_with_jurisdiction db doc).region_type = "STATE" ∧
        (enrich_with_jurisdiction db doc).region_id = "GA" ∧
        (enrich_with_jurisdiction db doc).applies_to_state = some "GA" ∧
        (enrich_with_jurisdiction db doc).applies_to_country = some "US" ∧
        (enrich_with_jurisdiction db doc).jurisdiction_hierarchy = []) := by
  have hempty : ∀ (db : RegionDB) (id : String),
      lookupRegion db id = none → get_region_hierarchy db id = [] := by
    intro db id h
    simp [get_region_hierarchy, h]
  refine ⟨hempty, ?_⟩
  intro db doc h
  have hh := hempty db (detect_region_from_source doc) h
  rw [enrich_with_jurisdiction, hh]
  exact ⟨rfl, rfl, rfl, rfl, rfl⟩

/-- Witness for C5: the empty caches and a `GA_CODE` document (which detects
to region id `GA`, unknown in the empty cache). -/
theorem enrich_unknown_region_witness :
    get_region_hierarchy ⟨[], []⟩ "GA" = [] ∧
    (enrich_with_jurisdiction ⟨[], []⟩
        ⟨"GA_CODE", "", "", some "c1", "t", "body", "", "", "", none, none⟩).region_id = "GA" ∧
    (enrich_with_jurisdiction ⟨[], []⟩
        ⟨"GA_CODE", "", "", some "c1", "t", "body", "", "", "", none, none⟩).jurisdiction_hierarchy
      = [] :=
  ⟨enrich_unknown_region.1 ⟨[], []⟩ "GA" rfl,
   (enrich_unknown_region.2 ⟨[], []⟩
      ⟨"GA_CODE", "", "", some "c1", "t", "body", "", "", "", none, none⟩ rfl).2.1,
   (enrich_unknown_region.2 ⟨[], []⟩
      ⟨"GA_CODE", "", "", some "c1", "t", "body", "", "", "", none, none⟩ rfl).2.2.2.2⟩

/-! ## Building the relationship cache (`load_regions_cache`)

The SQL `SELECT child_id, parent_id, is_primary, coverage_percentage FROM
region_relationships ORDER BY is_primary DESC, coverage_percentage DESC`
is modeled by an insertion sort on the raw table rows, and the grouping loop
(`if child_id not in _relationships_cache: ... append`) by `addRelRow`. -/

/-- A raw row of the `region_relationships` table, in insertion order. -/
structure RelRow where
  child_id : String
  parent_id : String
  is_primary : Bool
  coverage : Int
deriving DecidableEq

/-- The cached edge dict built from a table row. -/
def RelRow.toRel (r : RelRow) : Rel :=
  ⟨r.parent_id, r.is_primary, r.coverage⟩

/-- `r1` sorts at-or-before `r2` under
`ORDER BY is_primary DESC, coverage_percentage DESC`. -/
def relRowBefore (r1 r2 : RelRow) : Bool :=
  if r1.is_primary ≠ r2.is_primary then r1.is_primary
  else decide (r2.coverage ≤ r1.coverage)

def insertRelRow (r : RelRow) : List RelRow → List RelRow
  | [] => [r]
  | x :: xs => if relRowBefore r x then r :: x :: xs else x :: insertRelRow r xs

/-- The `ORDER BY` of `load_regions_cache`, as an insertion sort. -/
def sortRelRows : List RelRow → List RelRow
  | [] => []
  | x :: xs => insertRelRow x (sortRelRows xs)

/-- One iteration of the cache-building loop of `load_regions_cache`:
create the child's (insertion-ordered) entry if needed, then append the
edge. -/
def addRelRow (cache : List (String × List Rel)) (row : RelRow) :
    List (String × List Rel) :=
  if (cache.find? (fun kv => kv.1 == row.child_id)).isSome then
    cache.map (fun kv =>
      if kv.1 == row.child_id then (kv.1, kv.2 ++ [row.toRel]) else kv)
  else cache ++ [(row.child_id, [row.toRel])]

/-- `_relationships_cache` as built by `load_regions_cache` from the raw
table rows. -/
def buildRelCache (rows : List RelRow) : List (String × List Rel) :=
  (sortRelRows rows).foldl addRelRow []

/-- `load_regions_cache()`: both caches, from the `regions` rows and the
`region_relationships` rows (the latter in arbitrary table order). -/
def load_regions_cache (regions : List Region) (rows : List RelRow) : RegionDB :=
  ⟨regions, buildRelCache rows⟩

/-- The three-region cache for the multi-county-city scenario: the city
`GA-ATLANTA` and two counties `a` and `b`. -/
def atlantaRegions (a b na nb : String) : List Region :=
  [⟨"GA-ATLANTA", "Atlanta", "CITY"⟩, ⟨a, na, "COUNTY"⟩, ⟨b, nb, "COUNTY"⟩]

/-- A `MUNICODE` document whose `jurisdiction` field contains `Atlanta`, so
`detect_region_from_source` resolves it to the city `GA-ATLANTA`. -/
def atlantaDoc : Doc :=
  ⟨"MUNICODE", "Atlanta", "", some "ord-1", "Ordinances", "some text", "", "", "", none, none⟩

/-- Claim C6: for a city with two county parents of which exactly `a` is
primary, enrichment resolves `primary_county` to `a` whichever order the two
relationship rows were inserted in, because the cache orders edges by
`is_primary DESC, coverage DESC`. -/
theorem enrich_primary_county (a b na nb : String) (covA covB : Int)
    (ha : a ≠ "GA-ATLANTA") (hb : b ≠ "GA-ATLANTA") (hab : a ≠ b)
    (rows : List RelRow)
    (hrows : rows = [⟨"GA-ATLANTA", a, true, covA⟩, ⟨"GA-ATLANTA", b, false, covB⟩] ∨
             rows = [⟨"GA-ATLANTA", b, false, covB⟩, ⟨"GA-ATLANTA", a, true, covA⟩]) :
    (enrich_with_jurisdiction (load_regions_cache (atlantaRegions a b na nb) rows)
        atlantaDoc).primary_county = some a := by
  have h1 : (("GA-ATLANTA" : String) == a) = false := by simp [Ne.symm ha]
  have h2 : (("GA-ATLANTA" : String) == b) = false := by simp [Ne.symm hb]
  have h3 : ((a : String) == b) = false := by simp [hab]
  have hsort : sortRelRows rows
      = [⟨"GA-ATLANTA", a, true, covA⟩, ⟨"GA-ATLANTA", b, false, covB⟩] := by
    rcases hrows with h | h <;> subst h <;>
      simp [sortRelRows, insertRelRow, relRowBefore]
  have hdb : load_regions_cache (atlantaRegions a b na nb) rows
      = ⟨atlantaRegions a b na nb,
         [("GA-ATLANTA", [⟨a, true, covA⟩, ⟨b, false, covB⟩])]⟩ := by
    rw [load_regions_cache, buildRelCache, hsort]
    simp [addRelRow, RelRow.toRel]
  rw [hdb]
  have hdet : detect_region_from_source atlantaDoc = "GA-ATLANTA" := by decide
  have hhier : get_region_hierarchy
      ⟨atlantaRegions a b na nb,
       [("GA-ATLANTA", [⟨a, true, covA⟩, ⟨b, false, covB⟩])]⟩ "GA-ATLANTA"
      = [⟨⟨a, na, "COUNTY"⟩, some ⟨a, true, covA⟩⟩,
         ⟨⟨"GA-ATLANTA", "Atlanta", "CITY"⟩, none⟩] := by
    simp [get_region_hierarchy, lookupRegion, lookupRels, atlantaRegions,
      hierLoop, h1, h2, h3]
  simp only [enrich_with_jurisdiction, hdet, hhier]
  simp [get_all_parent_counties, lookupRels, lookupRegion, atlantaRegions, h1, h2, h3]

/-- Witness for C6 at fully concrete counties (`GA-FULTON` primary,
`GA-DEKALB` secondary, first insertion order). -/
theorem enrich_primary_county_witness :
    (enrich_with_jurisdiction
      (load_regions_cache (atlantaRegions "GA-FULTON" "GA-DEKALB" "Fulton" "DeKalb")
        [⟨"GA-ATLANTA", "GA-FULTON", true, 90⟩, ⟨"GA-ATLANTA", "GA-DEKALB", false, 10⟩])
      atlantaDoc).primary_county = some "GA-FULTON" :=
  enrich_primary_county "GA-FULTON" "GA-DEKALB" "Fulton" "DeKalb" 90 10
    (by decide) (by decide) (by decide) _ (Or.inl rfl)

/-! ## Jurisdiction filters (`scripts/search.py`)

`scripts/search.py` queries SQLite directly: `regions` and
`region_relationships` are modeled as row lists (`SearchDB`), and the three
SQL queries as filter/sort/join compositions.  Qdrant `Filter` objects are
modeled by `QFilter` with the standard Qdrant semantics: all `must`
conditions hold, and, if `should` is non-empty, at least one `should`
condition holds. -/

namespace Search

/-- The SQLite database seen by `scripts/search.py`: raw `regions` and
`region_relationships` rows. -/
structure SearchDB where
  regions : List Region
  rels : List RelRow
deriving DecidableEq

/-- `SELECT ... FROM regions WHERE id = ?` (first row). -/
def findRegion (db : SearchDB) (id : String) : Option Region :=
  db.regions.find? (fun r => r.id == id)

/-- `r1` sorts at-or-before `r2` under `ORDER BY rr.is_primary DESC`. -/
def rowBeforePrimary (r1 r2 : RelRow) : Bool :=
  r1.is_primary || !r2.is_primary

def insertByPrimary (r : RelRow) : List RelRow → List RelRow
  | [] => [r]
  | x :: xs => if rowBeforePrimary r x then r :: x :: xs else x :: insertByPrimary r xs

/-- `ORDER BY rr.is_primary DESC` as an insertion sort. -/
def sortByPrimary : List RelRow → List RelRow
  | [] => []
  | x :: xs => insertByPrimary x (sortByPrimary xs)

/-- The parent query of `get_region_hierarchy_ids`:
`SELECT r.id, r.type FROM regions r JOIN region_relationships rr ON
r.id = rr.parent_id WHERE rr.child_id = ? ORDER BY rr.is_primary DESC
LIMIT 1`. -/
def queryFirstParent (db : SearchDB) (child : String) : Option Region :=
  ((sortByPrimary (db.rels.filter (fun r => r.child_id == child))).filterMap
    (fun row => findRegion db row.parent_id)).head?

/-- `get_all_parent_counties(region_id)` from `scripts/search.py`:
`SELECT r.id FROM regions r JOIN region_relationships rr ON
r.id = rr.parent_id WHERE rr.child_id = ? AND r.type = 'COUNTY'
ORDER BY rr.is_primary DESC`. -/
def get_all_parent_counties (db : SearchDB) (region_id : String) : List String :=
  (sortByPrimary (db.rels.filter (fun r => r.child_id == region_id))).filterMap
    (fun row =>
      match findRegion db row.parent_id with
      | some reg => if reg.rtype == "COUNTY" then some reg.id else none
      | none => none)

/-- The `while True:` walk of `get_region_hierarchy_ids`, with the `visited`
cycle guard that lives inside `get_parents`. -/
def hierIdsLoop (db : SearchDB) :
    Nat → List String → List String → String → Option (List String)
  | 0, _, _, _ => none
  | fuel + 1, visited, hierarchy, current =>
    if current ∈ visited then some hierarchy
    else
      match queryFirstParent db current with
      | none => some hierarchy
      | some p => hierIdsLoop db fuel (current :: visited) (p.id :: hierarchy) p.id

/-- `get_region_hierarchy_ids(region_id)` from `scripts/search.py`: region
ids from the root down to `region_id`.  Each non-final iteration adds an
unvisited region id to `visited`, so `db.regions.length + 2` fuel always
suffices. -/
def get_region_hierarchy_ids (db : SearchDB) (region_id : String) : List String :=
  (hierIdsLoop db (db.regions.length + 2) [] [region_id] region_id).getD []

end Search

/-- Python `s.startswith(pre)`. -/
def pyStartsWith (s pre : String) : Bool :=
  decide (pre.data <+: s.data)

/-- `next((r for r in hierarchy_ids if r.startswith('GA') and len(r) == 2),
None)`: the state id extracted from a hierarchy id list (`len(r)` is the
character count `r.data.length`). -/
def stateIdOf (hierarchy_ids : List String) : Option String :=
  hierarchy_ids.find? (fun r => pyStartsWith r "GA" && r.data.length == 2)

/-- A Qdrant `FieldCondition`: `MatchValue` or `MatchAny`. -/
inductive Condition where
  | matchValue (key : String) (v : String)
  | matchAny (key : String) (vs : List String)
deriving DecidableEq

/-- A Qdrant `Filter(must=..., should=...)`. -/
structure QFilter where
  must : List Condition
  should : List Condition
deriving DecidableEq

/-- The payload fields of an indexed chunk that the jurisdiction filters
touch. -/
structure Payload where
  source : Option String
  primary_county : Option String
  applies_to_state : Option String
  applies_to_country : Option String
  applies_to_city : Option String
deriving DecidableEq

def payloadGet (p : Payload) (k : String) : Option String :=
  if k == "source" then p.source
  else if k == "primary_county" then p.primary_county
  else if k == "applies_to_state" then p.applies_to_state
  else if k == "applies_to_country" then p.applies_to_country
  else if k == "applies_to_city" then p.applies_to_city
  else none

def condMatches (p : Payload) : Condition → Bool
  | .matchValue k v => payloadGet p k == some v
  | .matchAny k vs =>
    match payloadGet p k with
    | some x => vs.contains x
    | none => false

/-- Qdrant filter semantics: every `must` condition holds, and if `should`
is non-empty at least one `should` condition holds. -/
def filterMatches (f : QFilter) (p : Payload) : Bool :=
  f.must.all (condMatches p) && (f.should.isEmpty || f.should.any (condMatches p))

namespace Search

/-- `build_jurisdiction_filter(region_id, include_parents)` from
`scripts/search.py`.  `none` models the final `return ... else None`. -/
def build_jurisdiction_filter (db : SearchDB) (region_id : String)
    (include_parents : Bool) : Option QFilter :=
  match findRegion db region_id with
  | none => some ⟨[Condition.matchValue "applies_to_state" "GA"], []⟩
  | some row =>
    let conditions : List Condition :=
      if row.rtype == "COUNTRY" then
        [Condition.matchValue "applies_to_country" region_id]
      else if row.rtype == "STATE" then
        [Condition.matchValue "applies_to_state" region_id] ++
          (if include_parents then [Condition.matchValue "applies_to_country" "US"] else [])
      else if row.rtype == "COUNTY" then
        [Condition.matchValue "primary_county" region_id] ++
          (if include_parents then
            match stateIdOf (get_region_hierarchy_ids db region_id) with
            | some st => [Condition.matchValue "applies_to_state" st]
            | none => []
          else [])
      else if row.rtype == "CITY" then
        [Condition.matchValue "applies_to_city" region_id] ++
          (if include_parents then
            (let county_ids := get_all_parent_counties db region_id
             (if county_ids.isEmpty then []
              else [Condition.matchAny "primary_county" county_ids]) ++
             (match stateIdOf (get_region_hierarchy_ids db region_id) with
              | some st => [Condition.matchValue "applies_to_state" st]
              | none => []))
          else [])
      else []
    if conditions.isEmpty then none else some ⟨[], conditions⟩

end Search

/-- Any hierarchy id list containing `"GA"` yields state id `"GA"`: the only
string satisfying `r.startswith('GA') and len(r) == 2` is `"GA"` itself. -/
theorem stateIdOf_mem {l : List String} (h : "GA" ∈ l) : stateIdOf l = some "GA" := by
  have hpred : ∀ x : String, (pyStartsWith x "GA" && x.data.length == 2) = true → x = "GA" := by
    intro x hx
    rw [Bool.and_eq_true] at hx
    obtain ⟨hpre, hlen⟩ := hx
    rw [pyStartsWith, decide_eq_true_eq] at hpre
    have hlen' : x.data.length = 2 := by simpa using hlen
    have hdata : ("GA" : String).data = x.data := by
      apply hpre.eq_of_length
      rw [hlen']
      rfl
    obtain ⟨d⟩ := x
    have hd : d = ['G', 'A'] := by simpa using hdata.symm
    rw [hd]
  have hsome : (stateIdOf l).isSome := by
    rw [stateIdOf, List.find?_isSome]
    exact ⟨"GA", h, by decide⟩
  obtain ⟨x, hx⟩ := Option.isSome_iff_exists.mp hsome
  have hx' : List.find? (fun r => pyStartsWith r "GA" && r.data.length == 2) l = some x := hx
  have hpx : (pyStartsWith x "GA" && x.data.length == 2) = true := by
    have h0 := List.find?_some hx'
    simpa using h0
  rw [hx, hpred x hpx]

/-- Claim C7: for `GA-GWINNETT` of type `COUNTY` whose hierarchy reaches the
state `GA`, `build_jurisdiction_filter('GA-GWINNETT', include_parents=True)`
yields an OR filter matched by exactly the chunks with
`primary_county == 'GA-GWINNETT'` or `applies_to_state == 'GA'`, and in
particular not by a chunk with `primary_county == 'GA-FULTON'` and
`applies_to_state == 'FL'`. -/
theorem build_jurisdiction_filter_gwinnett (db : Search.SearchDB) (r : Region)
    (hr : Search.findRegion db "GA-GWINNETT" = some r)
    (htype : r.rtype = "COUNTY")
    (hga : "GA" ∈ Search.get_region_hierarchy_ids db "GA-GWINNETT") :
    ∃ f, Search.build_jurisdiction_filter db "GA-GWINNETT" true = some f ∧
      (∀ p : Payload, filterMatches f p =
        ((p.primary_county == some "GA-GWINNETT") || (p.applies_to_state == some "GA"))) ∧
      filterMatches f ⟨none, some "GA-FULTON", some "FL", none, none⟩ = false := by
  have hstate := stateIdOf_mem hga
  refine ⟨⟨[], [Condition.matchValue "primary_county" "GA-GWINNETT",
                Condition.matchValue "applies_to_state" "GA"]⟩, ?_, ?_, by decide⟩
  · rw [Search.build_jurisdiction_filter, hr]
    simp [htype, hstate]
  · intro p
    simp [filterMatches, condMatches, payloadGet]

/-- Witness for C7 at a concrete two-region database. -/
theorem build_jurisdiction_filter_gwinnett_witness :
    Search.findRegion
        ⟨[⟨"GA-GWINNETT", "Gwinnett", "COUNTY"⟩, ⟨"GA", "Georgia", "STATE"⟩],
         [⟨"GA-GWINNETT", "GA", true, 100⟩]⟩ "GA-GWINNETT"
      = some ⟨"GA-GWINNETT", "Gwinnett", "COUNTY"⟩ ∧
    ∃ f, Search.build_jurisdiction_filter
        ⟨[⟨"GA-GWINNETT", "Gwinnett", "COUNTY"⟩, ⟨"GA", "Georgia", "STATE"⟩],
         [⟨"GA-GWINNETT", "GA", true, 100⟩]⟩ "GA-GWINNETT" true = some f ∧
      (∀ p : Payload, filterMatches f p =
        ((p.primary_county == some "GA-GWINNETT") || (p.applies_to_state == some "GA"))) ∧
      filterMatches f ⟨none, some "GA-FULTON", some "FL", none, none⟩ = false :=
  ⟨by decide,
   build_jurisdiction_filter_gwinnett
     ⟨[⟨"GA-GWINNETT", "Gwinnett", "COUNTY"⟩, ⟨"GA", "Georgia", "STATE"⟩],
      [⟨"GA-GWINNETT", "GA", true, 100⟩]⟩
     ⟨"GA-GWINNETT", "Gwinnett", "COUNTY"⟩ (by decide) rfl (by decide)⟩

/-! ## CLI search (`lawbot/cli/search.py`, `search_laws`)

The external effects — the LLM call inside `expand_query`, loading the
sentence-transformer and encoding the query, `psycopg2.connect`, and the two
SQL queries — are modeled by an oracle environment whose components are
`Except` values (`Except.error` = the Python call raised).  `search_laws`'s
own `try/except` structure is then a total function: `expand_query` and the
model-loading block catch their own exceptions, everything else propagates
to the outer handler, which returns `[]`. -/

/-- Python `s.split()`: split on whitespace runs, dropping empty tokens. -/
def pySplit (s : String) : List String :=
  (s.split (fun c => c.isWhitespace)).filter (fun w => w ≠ "")

/-- A row returned by either search SQL query:
`cite, title, chunk_text, source, source_url, score`.  The numeric score is
modeled as an integer stand-in (its value never feeds back into control
flow). -/
structure SearchRow where
  cite : Option String
  title : Option String
  text : Option String
  source : Option String
  source_url : Option String
  score : Int
deriving DecidableEq

/-- A formatted result dict of `search_laws`. -/
structure SearchResult where
  cite : String
  title : String
  text : String
  source : String
  score : Int
  url : String
deriving DecidableEq

/-- The outcome oracle for `search_laws`'s external calls. -/
structure SearchEnv where
  /-- `llm.chat(...)` inside `expand_query`: the enrichment text, or a raised
  exception. -/
  expandResult : Except String String
  /-- loading `SentenceTransformer` and encoding the query: the query vector
  (an opaque stand-in), or a raised exception. -/
  encodeResult : Except String (List Int)
  /-- `psycopg2.connect(...)`: unit, or a raised exception. -/
  connectResult : Except String Unit
  /-- executing the vector-similarity SQL: the fetched rows, or a raised
  exception. -/
  vectorRows : Except String (List SearchRow)
  /-- executing the keyword fallback SQL: the fetched rows, or a raised
  exception. -/
  textRows : Except String (List SearchRow)

/-- The configuration fields `search_laws` reads. -/
structure SearchConfig where
  search_limit : Nat
  region : Option String
deriving DecidableEq

/-- `expand_query(query, config)`: on LLM success the query plus the
enrichment, on any exception the original query (its own `try/except`). -/
def expand_query (env : SearchEnv) (query : String) : String :=
  match env.expandResult with
  | Except.ok enriched => query ++ " " ++ enriched
  | Except.error _ => query

/-- The query actually searched: expanded when `expand` is set. -/
def expanded_query (env : SearchEnv) (query : String) (expand : Bool) : String :=
  if expand then expand_query env query else query

/-- `[w.strip() for w in search_query.split() if len(w.strip()) > 2]`
(tokens from `split()` contain no whitespace, so `strip` is the
identity). -/
def search_words (env : SearchEnv) (query : String) (expand : Bool) : List String :=
  (pySplit (expanded_query env query expand)).filter (fun w => 2 < w.data.length)

/-- The inner model-loading `try/except`: `(use_vector_search,
query_vector)`. -/
def query_vec (env : SearchEnv) : Option (List Int) :=
  match env.encodeResult with
  | Except.ok v => some v
  | Except.error _ => none

/-- `(text or '')[:1500]`. -/
def truncate1500 (s : String) : String :=
  ⟨s.data.take 1500⟩

/-- Formatting of one fetched row into a result dict. -/
def formatRow (r : SearchRow) : SearchResult :=
  { cite := r.cite.getD "N/A"
    title := r.title.getD "Untitled"
    text := truncate1500 (r.text.getD "")
    source := r.source.getD "UNKNOWN"
    score := r.score
    url := r.source_url.getD "" }

/-- The body of `search_laws` inside the outer `try:`: an exception anywhere
after the two inner handlers propagates as `Except.error`. -/
def search_laws_body (env : SearchEnv) (query : String) (cfg : SearchConfig)
    (limit : Option Nat) (expand : Bool) : Except String (List SearchResult) :=
  let _limit := limit.getD cfg.search_limit
  let _search_query := expanded_query env query expand
  let qv := query_vec env
  match env.connectResult with
  | Except.error e => Except.error e
  | Except.ok _ =>
    -- `if use_vector_search and query_vector:` — `query_vector` is truthy
    -- exactly when it is a non-empty list
    let rowsE :=
      match qv with
      | some v => if v.isEmpty then env.textRows else env.vectorRows
      | none => env.textRows
    match rowsE with
    | Except.error e => Except.error e
    | Except.ok rows => Except.ok (rows.map formatRow)

/-- `search_laws(query, config, limit, expand)` from `lawbot/cli/search.py`:
the outer `except Exception: return []`. -/
def search_laws (env : SearchEnv) (query : String) (cfg : SearchConfig)
    (limit : Option Nat) (expand : Bool) : List SearchResult :=
  match search_laws_body env query cfg limit expand with
  | Except.ok r => r
  | Except.error _ => []

/-- Claim C10: `search_laws` never raises — for every oracle outcome it
returns a list, which is either the formatted rows of one of the two SQL
queries (vector search, or the keyword fallback used when the embedding step
failed) or the empty list; and whenever the database connection raises, the
result is exactly the empty list. -/
theorem search_laws_never_raises (env : SearchEnv) (query : String)
    (cfg : SearchConfig) (limit : Option Nat) (expand : Bool) :
    ((∃ rows, (env.vectorRows = Except.ok rows ∨ env.textRows = Except.ok rows) ∧
        search_laws env query cfg limit expand = rows.map formatRow) ∨
      search_laws env query cfg limit expand = []) ∧
    (∀ e, env.connectResult = Except.error e →
      search_laws env query cfg limit expand = []) := by
  constructor
  · match hc : env.connectResult with
    | Except.error e =>
      right
      simp [search_laws, search_laws_body, hc]
    | Except.ok u =>
      match hq : query_vec env with
      | some v =>
        by_cases hv0 : v.isEmpty
        · match ht : env.textRows with
          | Except.ok rows =>
            left
            exact ⟨rows, Or.inr rfl, by simp [search_laws, search_laws_body, hc, hq, hv0, ht]⟩
          | Except.error e =>
            right
            simp [search_laws, search_laws_body, hc, hq, hv0, ht]
        · match hv : env.vectorRows with
          | Except.ok rows =>
            left
            exact ⟨rows, Or.inl rfl, by simp [search_laws, search_laws_body, hc, hq, hv0, hv]⟩
          | Except.error e =>
            right
            simp [search_laws, search_laws_body, hc, hq, hv0, hv]
      | none =>
        match ht : env.textRows with
        | Except.ok rows =>
          left
          exact ⟨rows, Or.inr rfl, by simp [search_laws, search_laws_body, hc, hq, ht]⟩
        | Except.error e =>
          right
          simp [search_laws, search_laws_body, hc, hq, ht]
  · intro e hc
    simp [search_laws, search_laws_body, hc]

/-- Witness for C10: a concrete environment whose database connection
raises; `search_laws` returns `[]`. -/
theorem search_laws_never_raises_witness :
    search_laws
      ⟨Except.ok "enrichment", Except.ok [1, 2], Except.error "db down",
       Except.ok [], Except.ok []⟩
      "noise laws" ⟨10, none⟩ none true = [] :=
  (search_laws_never_raises
      ⟨Except.ok "enrichment", Except.ok [1, 2], Except.error "db down",
       Except.ok [], Except.ok []⟩
      "noise laws" ⟨10, none⟩ none true).2 "db down" rfl

/-! ## Decimal rendering is injective

`create_chunks` builds `chunk_id = cite + "__chunk_" + str(i)`; distinctness
of chunk ids reduces to injectivity of the decimal rendering `Nat.repr`,
proven here by a parse round trip through `Nat.toDigitsCore`. -/

/-- Parse a decimal digit string back to a number. -/
def decVal (l : List Char) : Nat :=
  l.foldl (fun a c => 10 * a + (c.toNat - 48)) 0

theorem decVal_append (l : List Char) (c : Char) :
    decVal (l ++ [c]) = 10 * decVal l + (c.toNat - 48) := by
  simp [decVal, List.foldl_append]

theorem digitChar_toNat : ∀ d : Nat, d < 10 → (Nat.digitChar d).toNat - 48 = d := by
  decide

theorem toDigitsCore_append :
    ∀ fuel n ds, Nat.toDigitsCore 10 fuel n ds = Nat.toDigitsCore 10 fuel n [] ++ ds := by
  intro fuel
  induction fuel with
  | zero => intro n ds; simp [Nat.toDigitsCore]
  | succ f ih =>
    intro n ds
    simp only [Nat.toDigitsCore]
    by_cases h : n / 10 = 0
    · simp [h]
    · rw [if_neg h, if_neg h, ih (n / 10) _, ih (n / 10) [Nat.digitChar (n % 10)],
        List.append_assoc]
      rfl

theorem decVal_toDigitsCore :
    ∀ fuel n, n < fuel → decVal (Nat.toDigitsCore 10 fuel n []) = n := by
  intro fuel
  induction fuel with
  | zero => intro n h; omega
  | succ f ih =>
    intro n h
    simp only [Nat.toDigitsCore]
    by_cases h0 : n / 10 = 0
    · rw [if_pos h0]
      have hlt : n % 10 < 10 := Nat.mod_lt n (by norm_num)
      have : decVal [Nat.digitChar (n % 10)] = n % 10 := by
        simp [decVal, digitChar_toNat (n % 10) hlt]
      rw [this]
      omega
    · rw [if_neg h0, toDigitsCore_append f (n / 10) [Nat.digitChar (n % 10)],
        decVal_append, ih (n / 10) (by omega)]
      have hlt : n % 10 < 10 := Nat.mod_lt n (by norm_num)
      rw [digitChar_toNat (n % 10) hlt]
      omega

/-- `str(n)` (decimal rendering) is injective. -/
theorem natRepr_injective : Function.Injective Nat.repr := by
  intro m n h
  have hm : decVal (Nat.repr m).data = m := decVal_toDigitsCore (m + 1) m (by omega)
  have hn : decVal (Nat.repr n).data = n := decVal_toDigitsCore (n + 1) n (by omega)
  rw [h] at hm
  omega

theorem string_append_left_cancel {a x y : String} (h : a ++ x = a ++ y) : x = y := by
  have h2 := congrArg String.data h
  simp only [String.data_append] at h2
  have h3 := List.append_cancel_left h2
  cases x
  cases y
  exact congrArg String.mk h3

/-- `pre + "__chunk_" + str(i)` is injective in the chunk index. -/
theorem chunkId_injective (pre : String) :
    Function.Injective (fun i : Nat => pre ++ "__chunk_" ++ Nat.repr i) := by
  intro i j h
  exact natRepr_injective (string_append_left_cancel h)

/-! ## Keyed upserts (`INSERT ... ON CONFLICT (key) DO UPDATE`)

A table is a row list; an upsert with a conflict target rewrites the
conflicting row in place (`DO UPDATE SET`) or appends a fresh row.  `rkey`
is the key column of a stored row, `xkey` the key of an incoming value,
`upd` the `DO UPDATE SET` assignment, `mk` the `INSERT` row. -/

section KeyedUpsert

variable {R X : Type}
variable (rkey : R → String) (xkey : X → String) (upd : R → X → R) (mk : X → R)

/-- One `INSERT ... ON CONFLICT DO UPDATE` statement against table `t`. -/
def keyedUpsert (t : List R) (x : X) : List R :=
  if t.any (fun r => rkey r == xkey x) then
    t.map (fun r => if rkey r == xkey x then upd r x else r)
  else t ++ [mk x]

/-- In a table whose key column is duplicate-free, exactly one row carries a
key that occurs in the table. -/
theorem countP_key_of_nodup (k : String) :
    ∀ t : List R, (t.map rkey).Nodup → (∃ r ∈ t, rkey r = k) →
      t.countP (fun r => rkey r == k) = 1 := by
  intro t
  induction t with
  | nil => intro _ h; simp at h
  | cons a t' ih =>
    intro hnd hex
    rw [List.map_cons, List.nodup_cons] at hnd
    rw [List.countP_cons]
    by_cases ha : rkey a = k
    · have hz : t'.countP (fun r => rkey r == k) = 0 := by
        rw [List.countP_eq_zero]
        intro r hr
        simp only [beq_iff_eq]
        intro hrk
        apply hnd.1
        rw [ha, ← hrk]
        exact List.mem_map_of_mem rkey hr
      simp [hz, ha]
    · obtain ⟨r, hr, hrk⟩ := hex
      rcases List.mem_cons.mp hr with rfl | hr'
      · exact absurd hrk ha
      · rw [ih hnd.2 ⟨r, hr', hrk⟩]
        simp [ha]

theorem keyedUpsert_countP_eq
    (hupd : ∀ r x, rkey (upd r x) = rkey r) (hmk : ∀ x, rkey (mk x) = xkey x)
    (t : List R) (x : X) (hnd : (t.map rkey).Nodup) :
    (keyedUpsert rkey xkey upd mk t x).countP (fun r => rkey r == xkey x) = 1 := by
  rw [keyedUpsert]
  by_cases hany : t.any (fun r => rkey r == xkey x) = true
  · rw [if_pos hany, List.countP_map]
    have hcong : t.countP
        ((fun r => rkey r == xkey x) ∘ (fun r => if rkey r == xkey x then upd r x else r))
        = t.countP (fun r => rkey r == xkey x) := by
      apply List.countP_congr
      intro r _
      by_cases h : rkey r = xkey x <;> simp [h, hupd]
    rw [hcong]
    obtain ⟨r, hr, hrx⟩ := List.any_eq_true.mp hany
    exact countP_key_of_nodup rkey (xkey x) t hnd ⟨r, hr, by simpa using hrx⟩
  · rw [if_neg hany, List.countP_append]
    have hz : t.countP (fun r => rkey r == xkey x) = 0 := by
      rw [List.countP_eq_zero]
      intro r hr hrx
      exact hany (List.any_eq_true.mpr ⟨r, hr, hrx⟩)
    rw [hz]
    simp [hmk]

theorem keyedUpsert_countP_ne
    (hupd : ∀ r x, rkey (upd r x) = rkey r) (hmk : ∀ x, rkey (mk x) = xkey x)
    (t : List R) (x : X) (k : String) (hk : k ≠ xkey x) :
    (keyedUpsert rkey xkey upd mk t x).countP (fun r => rkey r == k)
      = t.countP (fun r => rkey r == k) := by
  rw [keyedUpsert]
  by_cases hany : t.any (fun r => rkey r == xkey x) = true
  · rw [if_pos hany, List.countP_map]
    apply List.countP_congr
    intro r _
    by_cases h : rkey r = xkey x <;> simp [h, hupd]
  · rw [if_neg hany, List.countP_append]
    have hz : List.countP (fun r => rkey r == k) [mk x] = 0 := by
      simp [hmk, Ne.symm hk]
    rw [hz]
    omega

theorem keyedUpsert_keys_nodup
    (hupd : ∀ r x, rkey (upd r x) = rkey r) (hmk : ∀ x, rkey (mk x) = xkey x)
    (t : List R) (x : X) (hnd : (t.map rkey).Nodup) :
    ((keyedUpsert rkey xkey upd mk t x).map rkey).Nodup := by
  rw [keyedUpsert]
  by_cases hany : t.any (fun r => rkey r == xkey x) = true
  · rw [if_pos hany, List.map_map]
    have : t.map (rkey ∘ (fun r => if rkey r == xkey x then upd r x else r))
        = t.map rkey := by
      apply List.map_congr_left
      intro r _
      by_cases h : rkey r = xkey x <;> simp [h, hupd]
    rw [this]
    exact hnd
  · rw [if_neg hany, List.map_append]
    apply hnd.append (by simp)
    intro k hk hk'
    simp only [List.map_cons, List.map_nil, List.mem_singleton] at hk'
    obtain ⟨r, hr, hrk⟩ := List.mem_map.mp hk
    apply hany
    rw [List.any_eq_true]
    exact ⟨r, hr, by simp [hrk, hk', hmk]⟩

theorem foldl_keyedUpsert_countP_ne
    (hupd : ∀ r x, rkey (upd r x) = rkey r) (hmk : ∀ x, rkey (mk x) = xkey x)
    (k : String) :
    ∀ (xs : List X) (t : List R), (∀ x ∈ xs, xkey x ≠ k) →
      (xs.foldl (keyedUpsert rkey xkey upd mk) t).countP (fun r => rkey r == k)
        = t.countP (fun r => rkey r == k) := by
  intro xs
  induction xs with
  | nil => intro t _; rfl
  | cons x xs' ih =>
    intro t hk
    rw [List.foldl_cons, ih _ (fun y hy => hk y (List.mem_cons_of_mem x hy)),
      keyedUpsert_countP_ne rkey xkey upd mk hupd hmk t x k
        (Ne.symm (hk x (List.mem_cons_self x xs')))]

theorem foldl_keyedUpsert_keys_nodup
    (hupd : ∀ r x, rkey (upd r x) = rkey r) (hmk : ∀ x, rkey (mk x) = xkey x) :
    ∀ (xs : List X) (t : List R), (t.map rkey).Nodup →
      ((xs.foldl (keyedUpsert rkey xkey upd mk) t).map rkey).Nodup := by
  intro xs
  induction xs with
  | nil => intro t h; exact h
  | cons x xs' ih =>
    intro t hnd
    rw [List.foldl_cons]
    exact ih _ (keyedUpsert_keys_nodup rkey xkey upd mk hupd hmk t x hnd)

theorem countP_or_disjoint (p q : R → Bool) :
    ∀ l : List R, (∀ r ∈ l, ¬(p r = true ∧ q r = true)) →
      l.countP (fun r => p r || q r) = l.countP p + l.countP q := by
  intro l
  induction l with
  | nil => intro _; rfl
  | cons a l' ih =>
    intro h
    rw [List.countP_cons, List.countP_cons, List.countP_cons,
      ih (fun r hr => h r (List.mem_cons_of_mem a hr))]
    by_cases hp : p a = true <;> by_cases hq : q a = true
    · exact absurd ⟨hp, hq⟩ (h a (List.mem_cons_self a l'))
    · simp [hp, hq]; omega
    · simp [hp, hq]; omega
    · simp [hp, hq]

/-- After upserting a batch with duplicate-free keys into a table with
duplicate-free keys, the table holds exactly one row per batch key. -/
theorem foldl_keyedUpsert_countP_mem
    (hupd : ∀ r x, rkey (upd r x) = rkey r) (hmk : ∀ x, rkey (mk x) = xkey x) :
    ∀ (xs : List X) (t : List R), (t.map rkey).Nodup → (xs.map xkey).Nodup →
      (xs.foldl (keyedUpsert rkey xkey upd mk) t).countP
        (fun r => (xs.map xkey).contains (rkey r)) = xs.length := by
  intro xs
  induction xs with
  | nil => intro t _ _; simp
  | cons x xs' ih =>
    intro t hndt hndxs
    rw [List.map_cons, List.nodup_cons] at hndxs
    rw [List.foldl_cons, List.length_cons]
    have hsplit : (xs'.foldl (keyedUpsert rkey xkey upd mk)
          (keyedUpsert rkey xkey upd mk t x)).countP
        (fun r => (xkey x :: xs'.map xkey).contains (rkey r))
        = (xs'.foldl (keyedUpsert rkey xkey upd mk)
            (keyedUpsert rkey xkey upd mk t x)).countP
          (fun r => rkey r == xkey x) +
          (xs'.foldl (keyedUpsert rkey xkey upd mk)
            (keyedUpsert rkey xkey upd mk t x)).countP
          (fun r => (xs'.map xkey).contains (rkey r)) := by
      rw [← countP_or_disjoint]
      · apply List.countP_congr
        intro r _
        constructor
        · intro h
          simp only [List.contains_cons] at h
          simpa using h
        · intro h
          simp only [List.contains_cons]
          simpa using h
      · intro r _ ⟨h1, h2⟩
        rw [beq_iff_eq] at h1
        have : xkey x ∈ xs'.map xkey := by
          rw [← h1]
          simpa using h2
        exact hndxs.1 this
    rw [List.map_cons, hsplit,
      foldl_keyedUpsert_countP_ne rkey xkey upd mk hupd hmk (xkey x) xs' _
        (fun y hy hxy => hndxs.1 (hxy ▸ List.mem_map_of_mem xkey hy)),
      keyedUpsert_countP_eq rkey xkey upd mk hupd hmk t x hndt,
      ih _ (keyedUpsert_keys_nodup rkey xkey upd mk hupd hmk t x hndt) hndxs.2]
    omega

end KeyedUpsert

/-! ## Chunk creation and the ingestion writer (`scripts/ingest.py`,
`create_chunks` / `ingest_to_postgres`)

A document dict flowing into ingestion is an `Enriched`.  `create_chunks`
chunks its text (the `uuidHex` argument stands for the fresh `uuid4().hex`
used only when `cite` is absent) and `ingest_to_postgres` upserts documents
by `cite` and chunks by `chunk_id`, exactly with the column lists of the two
`ON CONFLICT ... DO UPDATE SET` statements. -/

/-- A chunk dict built by `create_chunks`: `{**doc, 'text': ...,
'chunk_index': ..., 'total_chunks': ..., 'chunk_id': ...}`. -/
structure IngestChunk where
  doc : Enriched
  text : String
  chunk_index : Nat
  total_chunks : Nat
  chunk_id : String
deriving DecidableEq

/-- `create_chunks(doc)` from `scripts/ingest.py`.  (`chunk_text` is total
at the default parameters `750/75`; the `getD []` only covers the fuel
model's unreachable `none`.) -/
def create_chunks (d : Enriched) (uuidHex : String) : List IngestChunk :=
  if d.doc.text = "" then []
  else
    let wcs := (chunk_text (pySplit d.doc.text) 750 75).getD []
    wcs.enum.map (fun p =>
      { doc := d
        text := String.intercalate " " p.2
        chunk_index := p.1
        total_chunks := wcs.length
        chunk_id := (d.doc.cite.getD uuidHex) ++ "__chunk_" ++ Nat.repr p.1 })

/-- A row of the `documents` table.  `metadata` stands for the
JSON-serialized leftover fields (`json.dumps({k: v ...})`), modeled by the
document itself. -/
structure DocRow where
  id : String
  source : String
  jurisdiction : String
  cite : String
  title : String
  full_text : String
  metadata : Enriched
deriving DecidableEq

/-- The `documents` `INSERT` values: `id = doc.get('cite', str(uuid4()))`,
`cite = doc.get('cite', '')`. -/
def mkDocRow (uuid : String) (d : Enriched) : DocRow :=
  { id := d.doc.cite.getD uuid
    source := d.doc.source
    jurisdiction := d.doc.jurisdiction
    cite := d.doc.cite.getD ""
    title := d.doc.title
    full_text := d.doc.text
    metadata := d }

/-- The `documents` `ON CONFLICT (cite) DO UPDATE SET` column list (`id` and
`cite` are not reassigned). -/
def updDocRow (r : DocRow) (d : Enriched) : DocRow :=
  { r with
    source := d.doc.source
    jurisdiction := d.doc.jurisdiction
    title := d.doc.title
    full_text := d.doc.text
    metadata := d }

/-- The conflict key of an incoming document: its `cite` column value. -/
def docKey (d : Enriched) : String := d.doc.cite.getD ""

/-- A row of the `chunks` table.  `embedding` is the `vector(1536)` column
(an opaque stand-in), `NULL` on fresh insert and filled later by
`generate_embeddings.py`. -/
structure ChunkRow where
  chunk_id : String
  document_id : String
  chunk_index : Nat
  chunk_text : String
  embedding_model : String
  source : String
  cite : String
  title : String
  title_num : String
  chapter : String
  source_url : String
  date : String
  region_type : String
  region_id : String
  region_name : String
  applies_to_country : Option String
  applies_to_state : Option String
  applies_to_counties : Option (List String)
  primary_county : Option String
  applies_to_city : Option String
  jurisdiction_hierarchy : List HierEntry
  embedding : Option (List Int)
deriving DecidableEq

/-- The `chunks` `INSERT` values (the `embedding` column is not inserted, so
it is `NULL`). -/
def mkChunkRow (emb : String) (c : IngestChunk) : ChunkRow :=
  { chunk_id := c.chunk_id
    document_id := c.doc.doc.cite.getD ""
    chunk_index := c.chunk_index
    chunk_text := c.text
    embedding_model := emb
    source := c.doc.doc.source
    cite := c.doc.doc.cite.getD ""
    title := c.doc.doc.title
    title_num := c.doc.doc.title_num
    chapter := c.doc.doc.chapter
    source_url := c.doc.doc.source_url
    date := c.doc.doc.date.getD (c.doc.doc.release.getD "")
    region_type := c.doc.region_type
    region_id := c.doc.region_id
    region_name := c.doc.region_name
    applies_to_country := c.doc.applies_to_country
    applies_to_state := c.doc.applies_to_state
    applies_to_counties := c.doc.applies_to_counties
    primary_county := c.doc.primary_county
    applies_to_city := c.doc.applies_to_city
    jurisdiction_hierarchy := c.doc.jurisdiction_hierarchy
    embedding := none }

/-- The `chunks` `ON CONFLICT (chunk_id) DO UPDATE SET` column list:
`chunk_text, source, cite, title` and the jurisdiction columns.  Neither
`embedding` nor `embedding_model` (nor `chunk_index, document_id, title_num,
chapter, source_url, date`) is reassigned. -/
def updChunkRow (r : ChunkRow) (c : IngestChunk) : ChunkRow :=
  { r with
    chunk_text := c.text
    source := c.doc.doc.source
    cite := c.doc.doc.cite.getD ""
    title := c.doc.doc.title
    region_type := c.doc.region_type
    region_id := c.doc.region_id
    region_name := c.doc.region_name
    applies_to_country := c.doc.applies_to_country
    applies_to_state := c.doc.applies_to_state
    applies_to_counties := c.doc.applies_to_counties
    primary_county := c.doc.primary_county
    applies_to_city := c.doc.applies_to_city
    jurisdiction_hierarchy := c.doc.jurisdiction_hierarchy }

/-- The PostgreSQL state touched by ingestion. -/
structure PGState where
  documents : List DocRow
  chunks : List ChunkRow
deriving DecidableEq

/-- One document upsert (`ON CONFLICT (cite) DO UPDATE`). -/
def upsertDoc (uuid : String) (t : List DocRow) (d : Enriched) : List DocRow :=
  keyedUpsert DocRow.cite docKey updDocRow (mkDocRow uuid) t d

/-- One chunk upsert (`ON CONFLICT (chunk_id) DO UPDATE`). -/
def upsertChunk (emb : String) (t : List ChunkRow) (c : IngestChunk) : List ChunkRow :=
  keyedUpsert ChunkRow.chunk_id IngestChunk.chunk_id updChunkRow (mkChunkRow emb) t c

/-- `ingest_to_postgres(docs, chunks)` from `scripts/ingest.py`: upsert all
documents, then all chunks.  `uuid` stands for the fresh `str(uuid4())` id
default; `emb` for the `AZURE_OPENAI_EMBEDDING_MODEL` environment value. -/
def ingest_to_postgres (st : PGState) (docs : List Enriched)
    (chunks : List IngestChunk) (uuid emb : String) : PGState :=
  { documents := docs.foldl (upsertDoc uuid) st.documents
    chunks := chunks.foldl (upsertChunk emb) st.chunks }

/-- The chunk ids produced for a document: `cite + "__chunk_" + str(i)` for
`i` ranging over the chunk indices. -/
theorem create_chunks_ids (d : Enriched) (u : String) :
    (create_chunks d u).map IngestChunk.chunk_id
      = (List.range (create_chunks d u).length).map
          (fun i => (d.doc.cite.getD u) ++ "__chunk_" ++ Nat.repr i) := by
  rw [create_chunks]
  by_cases h : d.doc.text = ""
  · simp [h]
  · rw [if_neg h]
    set wcs := (chunk_text (pySplit d.doc.text) 750 75).getD [] with hw
    simp only [List.map_map, List.length_map, List.enum_length]
    have h1 : wcs.enum.map (IngestChunk.chunk_id ∘ (fun p : Nat × List String =>
        ({ doc := d, text := String.intercalate " " p.2, chunk_index := p.1,
           total_chunks := wcs.length,
           chunk_id := (d.doc.cite.getD u) ++ "__chunk_" ++ Nat.repr p.1 } : IngestChunk)))
        = wcs.enum.map ((fun i => (d.doc.cite.getD u) ++ "__chunk_" ++ Nat.repr i) ∘ Prod.fst) := rfl
    rw [h1, ← List.map_map, List.enum_map_fst]

/-- Distinctness of the chunk ids of one document. -/
theorem create_chunks_ids_nodup (d : Enriched) (u : String) :
    ((create_chunks d u).map IngestChunk.chunk_id).Nodup := by
  rw [create_chunks_ids]
  exact (List.nodup_range _).map (chunkId_injective _)

/-- Every chunk's `total_chunks` equals the number of chunks produced. -/
theorem create_chunks_total (d : Enriched) (u : String) :
    ∀ ch ∈ create_chunks d u, ch.total_chunks = (create_chunks d u).length := by
  intro ch hch
  rw [create_chunks] at hch ⊢
  by_cases h : d.doc.text = ""
  · rw [if_pos h] at hch; simp at hch
  · rw [if_neg h] at hch ⊢
    simp only [List.mem_map] at hch
    obtain ⟨p, _, rfl⟩ := hch
    simp [List.enum_length]

/-- The number of chunks of a document does not depend on the uuid fallback
(which only enters the chunk ids). -/
theorem create_chunks_length (d : Enriched) (u u' : String) :
    (create_chunks d u).length = (create_chunks d u').length := by
  rw [create_chunks, create_chunks]
  by_cases h : d.doc.text = "" <;> simp [h]

/-- Claim C9 (the code's actual behavior): on a chunk upsert conflict the
`DO UPDATE SET` column list does not contain `embedding`, so the stored
embeddings column is preserved unchanged — also when the incoming chunk's
text differs from the stored text, where the claim requires it to be
cleared. -/
theorem chunk_upsert_preserves_embedding (t : List ChunkRow) (c : IngestChunk)
    (emb : String)
    (hconflict : t.any (fun r => r.chunk_id == c.chunk_id) = true) :
    (upsertChunk emb t c).map (fun r => r.embedding)
      = t.map (fun r => r.embedding) := by
  rw [upsertChunk, keyedUpsert, if_pos hconflict, List.map_map]
  apply List.map_congr_left
  intro r _
  by_cases h : r.chunk_id = c.chunk_id <;> simp [h, updChunkRow]

/-- A concrete enriched document with citation `c` and a two-word text. -/
def stubEnriched : Enriched :=
  ⟨⟨"GA_CODE", "GA", "", some "c", "t", "old text", "", "", "", none, none⟩,
   "STATE", "GA", "Georgia", some "US", some "GA", none, none, none, []⟩

/-- A stored chunk row with text `"old text"` and a non-null embedding. -/
def stubChunkRow : ChunkRow :=
  ⟨"c__chunk_0", "c", 0, "old text", "m", "GA_CODE", "c", "t", "", "", "", "",
   "STATE", "GA", "Georgia", some "US", some "GA", none, none, none, [], some [1]⟩

/-- An incoming chunk for the same `chunk_id` whose text changed to
`"new text"`. -/
def stubIngestChunk : IngestChunk :=
  ⟨⟨⟨"GA_CODE", "GA", "", some "c", "t", "new text", "", "", "", none, none⟩,
    "STATE", "GA", "Georgia", some "US", some "GA", none, none, none, []⟩,
   "new text", 0, 1, "c__chunk_0"⟩

/-- Witness for C9's code-behavior theorem: the incoming text differs from
the stored text, yet the stored embedding `some [1]` survives the upsert. -/
theorem chunk_upsert_preserves_embedding_witness :
    stubIngestChunk.text ≠ stubChunkRow.chunk_text ∧
    (upsertChunk "m" [stubChunkRow] stubIngestChunk).map (fun r => r.embedding)
      = [some [1]] :=
  ⟨by decide,
   by rw [chunk_upsert_preserves_embedding [stubChunkRow] stubIngestChunk "m" (by decide)]; rfl⟩

/-- Claim C8: ingestion is idempotent per citation.  For a document with
`cite = c ≠ ''` and initial tables with duplicate-free keys, running the
enrich/chunk/upsert pipeline twice leaves exactly one `documents` row with
that cite and exactly `total_chunks` `chunks` rows under the document's
chunk ids (which are identical across the two runs), not double that. -/
theorem ingest_idempotent (st : PGState) (d : Enriched) (c u1 u2 u3 u4 emb : String)
    (hc : d.doc.cite = some c) (hcne : c ≠ "")
    (hndd : (st.documents.map DocRow.cite).Nodup)
    (hndc : (st.chunks.map ChunkRow.chunk_id).Nodup) :
    (create_chunks d u3).map IngestChunk.chunk_id
      = (create_chunks d u1).map IngestChunk.chunk_id ∧
    (∀ ch ∈ create_chunks d u1, ch.total_chunks = (create_chunks d u1).length) ∧
    ((ingest_to_postgres (ingest_to_postgres st [d] (create_chunks d u1) u2 emb)
        [d] (create_chunks d u3) u4 emb).documents.countP
      (fun r => r.cite == c) = 1) ∧
    ((ingest_to_postgres (ingest_to_postgres st [d] (create_chunks d u1) u2 emb)
        [d] (create_chunks d u3) u4 emb).chunks.countP
      (fun r => ((create_chunks d u1).map IngestChunk.chunk_id).contains r.chunk_id)
      = (create_chunks d u1).length) := by
  have hupdD : ∀ (r : DocRow) (x : Enriched), DocRow.cite (updDocRow r x) = DocRow.cite r :=
    fun r x => rfl
  have hmkD : ∀ (u : String) (x : Enriched), DocRow.cite (mkDocRow u x) = docKey x :=
    fun u x => rfl
  have hupdC : ∀ (r : ChunkRow) (x : IngestChunk),
      ChunkRow.chunk_id (updChunkRow r x) = ChunkRow.chunk_id r := fun r x => rfl
  have hmkC : ∀ (e : String) (x : IngestChunk),
      ChunkRow.chunk_id (mkChunkRow e x) = IngestChunk.chunk_id x := fun e x => rfl
  have hkey : docKey d = c := by simp [docKey, hc]
  have hids : ∀ u, (create_chunks d u).map IngestChunk.chunk_id
      = (List.range (create_chunks d u).length).map
          (fun i => c ++ "__chunk_" ++ Nat.repr i) := by
    intro u
    rw [create_chunks_ids]
    simp [hc]
  have hlen : (create_chunks d u3).length = (create_chunks d u1).length :=
    create_chunks_length d u3 u1
  have hidseq : (create_chunks d u3).map IngestChunk.chunk_id
      = (create_chunks d u1).map IngestChunk.chunk_id := by
    rw [hids u3, hids u1, hlen]
  refine ⟨hidseq, create_chunks_total d u1, ?_, ?_⟩
  · -- exactly one documents row keyed by `c` after the double upsert
    simp only [ingest_to_postgres, List.foldl_cons, List.foldl_nil, upsertDoc]
    simp only [← hkey]
    apply keyedUpsert_countP_eq DocRow.cite docKey updDocRow (mkDocRow u4)
      hupdD (hmkD u4)
    exact keyedUpsert_keys_nodup DocRow.cite docKey updDocRow (mkDocRow u2)
      hupdD (hmkD u2) st.documents d hndd
  · -- exactly `total_chunks` chunks rows under the document's chunk ids
    simp only [ingest_to_postgres, upsertChunk]
    rw [← hidseq, ← hlen]
    apply foldl_keyedUpsert_countP_mem ChunkRow.chunk_id IngestChunk.chunk_id
      updChunkRow (mkChunkRow emb) hupdC (hmkC emb)
    · exact foldl_keyedUpsert_keys_nodup ChunkRow.chunk_id IngestChunk.chunk_id
        updChunkRow (mkChunkRow emb) hupdC (hmkC emb) (create_chunks d u1) st.chunks hndc
    · exact create_chunks_ids_nodup d u3

/-- Witness for C8: ingesting the concrete document `stubEnriched` twice
into empty tables. -/
theorem ingest_idempotent_witness :
    ((ingest_to_postgres (ingest_to_postgres ⟨[], []⟩ [stubEnriched]
          (create_chunks stubEnriched "u1") "u2" "m")
        [stubEnriched] (create_chunks stubEnriched "u3") "u4" "m").documents.countP
      (fun r => r.cite == "c") = 1) ∧
    ((ingest_to_postgres (ingest_to_postgres ⟨[], []⟩ [stubEnriched]
          (create_chunks stubEnriched "u1") "u2" "m")
        [stubEnriched] (create_chunks stubEnriched "u3") "u4" "m").chunks.countP
      (fun r => ((create_chunks stubEnriched "u1").map IngestChunk.chunk_id).contains
        r.chunk_id)
      = (create_chunks stubEnriched "u1").length) :=
  ⟨(ingest_idempotent ⟨[], []⟩ stubEnriched "c" "u1" "u2" "u3" "u4" "m"
      rfl (by decide) (by simp) (by simp)).2.2.1,
   (ingest_idempotent ⟨[], []⟩ stubEnriched "c" "u1" "u2" "u3" "u4" "m"
      rfl (by decide) (by simp) (by simp)).2.2.2⟩

end LawAI
